import Mathlib

/-!
Verification development for the LLHD IR unit container (`src/ir/unit.rs`).

The file shallowly embeds the data model and the mutation protocol of the
unit container.  Items that live in `unit.rs` (UnitName, UnitKind, UnitData,
the Unit view accessors, and the UnitBuilder methods) are translated directly
from that source.  The collaborating components (DataFlowGraph,
ControlFlowGraph, FunctionLayout, FunctionInsertPos, Signature, InstData) are
not part of the given sources; their definitions are modelled from the
specification, as indicated in their doc comments.  Panics of the Rust code
are modelled by Option results, with `none` standing for an abort.
-/

namespace llhd

/-- An SSA value handle (dense integer key into the DFG arena). -/
structure Value where
  id : Nat
deriving DecidableEq

/-- An instruction handle (dense integer key into the DFG arena). -/
structure Inst where
  id : Nat
deriving DecidableEq

/-- A basic-block handle (dense integer key into the CFG arena). -/
structure Block where
  id : Nat
deriving DecidableEq

/-- A signature-argument slot handle.  Inputs come first, then outputs. -/
structure Arg where
  id : Nat
deriving DecidableEq

/-- The invalid-value sentinel (tombstone), `Value::invalid()` in the source;
table keys use the all-ones 32-bit pattern as the invalid marker. -/
def Value.invalid : Value := ⟨4294967295⟩

/-- The invalid-block sentinel (tombstone), `Block::invalid()` in the source. -/
def Block.invalid : Block := ⟨4294967295⟩

/-- Modelled from the spec: the type of a value.  Only the shape needed by the
container is modelled (`void` marks instructions without a result). -/
inductive Ty where
  | void
  | int (width : Nat)
  | time
deriving DecidableEq

/-- Modelled from the spec (§3, the instruction-kind tables are out of scope):
an instruction payload with an operand list, a block-reference list (branch
targets and ϕ predecessors) and a ϕ marker.  For a ϕ-style merge instruction
the operands are paired with the predecessor blocks by position. -/
structure InstData where
  opcode : String
  args : List Value
  bbs : List Block
  isPhi : Bool
deriving DecidableEq

/-- Modelled from the spec (§3): an ordered list of input arguments, an
ordered list of output arguments, and an optional return type. -/
structure Signature where
  inputs : List Ty
  outputs : List Ty
  retTy : Option Ty
deriving DecidableEq

/-- Whether the signature has any output arguments. -/
def Signature.has_outputs (s : Signature) : Bool :=
  !s.outputs.isEmpty

/-- Whether the signature has a return type. -/
def Signature.has_return_type (s : Signature) : Bool :=
  s.retTy.isSome

/-- The argument slots of the signature: inputs first, then outputs. -/
def Signature.inputArgs (s : Signature) : List Arg :=
  (List.range s.inputs.length).map Arg.mk

/-- The output argument slots of the signature, offset past the inputs. -/
def Signature.outputArgs (s : Signature) : List Arg :=
  (List.range s.outputs.length).map (fun k => Arg.mk (s.inputs.length + k))

/-- One live instruction of the DFG: its handle, its payload, and its result
value if the instruction produces one. -/
structure InstEntry where
  key : Inst
  data : InstData
  result : Option Value
deriving DecidableEq

/-- Modelled from the spec (§4.1): the data-flow graph stores the live
instructions with their payloads and result values, and the values bound to
the signature arguments.  Use-lists are maintained per invariant §3.2 as the
set of instructions whose operand list contains the value, so they are
derived here rather than stored. -/
structure DataFlowGraph where
  insts : List InstEntry
  argValues : List Value
  nextInst : Nat
  nextValue : Nat
deriving DecidableEq

def DataFlowGraph.new : DataFlowGraph :=
  ⟨[], [], 0, 0⟩

/-- Look up the entry of a live instruction. -/
def DataFlowGraph.findEntry (d : DataFlowGraph) (i : Inst) : Option InstEntry :=
  d.insts.find? (fun e => decide (e.key = i))

/-- Modelled from the spec: result accessor `get_inst_result`. -/
def DataFlowGraph.get_inst_result (d : DataFlowGraph) (i : Inst) : Option Value :=
  (d.findEntry i).bind (fun e => e.result)

/-- Modelled from the spec: result accessor `has_result`. -/
def DataFlowGraph.has_result (d : DataFlowGraph) (i : Inst) : Bool :=
  (d.get_inst_result i).isSome

/-- Modelled from the spec: `uses(v)`, the instructions whose operand list
contains `v` (invariant §3.2). -/
def DataFlowGraph.uses (d : DataFlowGraph) (v : Value) : List Inst :=
  (d.insts.filter (fun e => decide (v ∈ e.data.args))).map (fun e => e.key)

/-- Modelled from the spec: `has_uses(v)`. -/
def DataFlowGraph.has_uses (d : DataFlowGraph) (v : Value) : Bool :=
  !(d.uses v).isEmpty

/-- Modelled from the spec: `get_value_inst(v)`, the instruction whose result
is `v`, if any. -/
def DataFlowGraph.get_value_inst (d : DataFlowGraph) (v : Value) : Option Inst :=
  (d.insts.find? (fun e => decide (e.result = some v))).map (fun e => e.key)

/-- Modelled from the spec: `arg_value(arg)`, the deterministic mapping from a
signature-argument slot to its bound value.  A dangling slot aborts (`none`). -/
def DataFlowGraph.arg_value (d : DataFlowGraph) (a : Arg) : Option Value :=
  d.argValues.get? a.id

/-- Modelled from the spec (§4.4): materialize the argument-value bindings
from the signature into the DFG, one fresh value per argument slot. -/
def DataFlowGraph.make_args_for_signature (d : DataFlowGraph) (sig : Signature) : DataFlowGraph :=
  let n := sig.inputs.length + sig.outputs.length
  { d with
    argValues := (List.range n).map (fun k => Value.mk (d.nextValue + k)),
    nextValue := d.nextValue + n }

/-- Modelled from the spec: `add_inst(data, type)` allocates a fresh
instruction; if the type is not void, its result value is allocated and bound
to the instruction. -/
def DataFlowGraph.add_inst (d : DataFlowGraph) (data : InstData) (ty : Ty) :
    DataFlowGraph × Inst :=
  let i := Inst.mk d.nextInst
  let res : Option Value := if ty = Ty.void then none else some (Value.mk d.nextValue)
  let nv := if ty = Ty.void then d.nextValue else d.nextValue + 1
  ({ d with
      insts := d.insts ++ [⟨i, data, res⟩],
      nextInst := d.nextInst + 1,
      nextValue := nv },
   i)

/-- Replace every occurrence of `f` in the operand list by `t`. -/
def InstData.replaceArgs (data : InstData) (f t : Value) : InstData :=
  { data with args := data.args.map (fun v => if v = f then t else v) }

/-- Modelled from the spec: `replace_use(from, to)` rewrites every occurrence
of `from` across all users of `from` to `to` and returns the number of
operand slots changed.  Use-lists being derived, rewriting all operand lists
updates them accordingly. -/
def DataFlowGraph.replace_use (d : DataFlowGraph) (f t : Value) : DataFlowGraph × Nat :=
  ({ d with insts := d.insts.map (fun e => { e with data := e.data.replaceArgs f t }) },
   (d.insts.map (fun e => e.data.args.count f)).sum)

/-- Modelled from the spec: scrub the references to one block inside a single
instruction payload.  For a ϕ-style merge the (value, predecessor) entries
for the block are dropped; otherwise each reference is replaced by the
invalid-block sentinel.  Also returns the number of references affected. -/
def InstData.removeBlockRefs (data : InstData) (bb : Block) : InstData × Nat :=
  if data.isPhi then
    let pairs := data.args.zip data.bbs
    let kept := pairs.filter (fun p => decide (p.2 ≠ bb))
    ({ data with args := kept.map (fun p => p.1), bbs := kept.map (fun p => p.2) },
     pairs.length - kept.length)
  else
    ({ data with bbs := data.bbs.map (fun x => if x = bb then Block.invalid else x) },
     data.bbs.count bb)

/-- Modelled from the spec (§4.1): `remove_block_use(block)` replaces all
references to the block with the invalid-block sentinel and removes any
ϕ predecessor entries for it, returning how many references were affected. -/
def DataFlowGraph.remove_block_use (d : DataFlowGraph) (bb : Block) : DataFlowGraph × Nat :=
  ({ d with insts := d.insts.map (fun e => { e with data := (e.data.removeBlockRefs bb).1 }) },
   (d.insts.map (fun e => (e.data.removeBlockRefs bb).2)).sum)

/-- Modelled from the spec (§4.1): `remove_inst(inst)` deregisters the
instruction from all use-lists (automatic here, uses being derived) and drops
its result value after asserting that it has no remaining uses; the failed
assertion (a panic) is `none`. -/
def DataFlowGraph.remove_inst (d : DataFlowGraph) (i : Inst) : Option DataFlowGraph :=
  let rest := d.insts.filter (fun e => decide (e.key ≠ i))
  match d.get_inst_result i with
  | some r =>
      if rest.any (fun e => decide (r ∈ e.data.args)) then none
      else some { d with insts := rest }
  | none => some { d with insts := rest }

/-- Modelled from the spec (§4.2): the control-flow graph stores the block
payloads; `add_block` allocates a fresh block. -/
structure ControlFlowGraph where
  blocks : List Block
  nextBlock : Nat
deriving DecidableEq

def ControlFlowGraph.new : ControlFlowGraph :=
  ⟨[], 0⟩

/-- Modelled from the spec: allocate a fresh block. -/
def ControlFlowGraph.add_block (c : ControlFlowGraph) : ControlFlowGraph × Block :=
  let bb := Block.mk c.nextBlock
  ({ blocks := c.blocks ++ [bb], nextBlock := c.nextBlock + 1 }, bb)

/-- Modelled from the spec: destroy a block node. -/
def ControlFlowGraph.remove_block (c : ControlFlowGraph) (bb : Block) : ControlFlowGraph :=
  { c with blocks := c.blocks.filter (fun x => decide (x ≠ bb)) }

/-- Modelled from the spec (§4.3): the layout keeps the order of blocks in the
unit and of the instructions within each block. -/
structure FunctionLayout where
  bbs : List Block
  bbInsts : List (Block × List Inst)
deriving DecidableEq

def FunctionLayout.new : FunctionLayout :=
  ⟨[], []⟩

/-- Modelled from the spec: append a block at the end of the unit. -/
def FunctionLayout.append_block (l : FunctionLayout) (bb : Block) : FunctionLayout :=
  { bbs := l.bbs ++ [bb], bbInsts := l.bbInsts ++ [(bb, [])] }

/-- Modelled from the spec: the instructions of a block, in layout order. -/
def FunctionLayout.insts (l : FunctionLayout) (bb : Block) : List Inst :=
  (((l.bbInsts.find? (fun e => decide (e.1 = bb))).map (fun e => e.2)).getD [])

/-- Modelled from the spec: remove a block (and its instruction ordering) from
the layout. -/
def FunctionLayout.remove_block (l : FunctionLayout) (bb : Block) : FunctionLayout :=
  { bbs := l.bbs.filter (fun x => decide (x ≠ bb)),
    bbInsts := l.bbInsts.filter (fun e => decide (e.1 ≠ bb)) }

/-- Modelled from the spec: remove an instruction from the per-block ordering. -/
def FunctionLayout.remove_inst (l : FunctionLayout) (i : Inst) : FunctionLayout :=
  { l with bbInsts := l.bbInsts.map (fun e => (e.1, e.2.filter (fun x => decide (x ≠ i)))) }

/-- Modelled from the spec: the entry block is the first block of the layout;
an empty layout has none (`entry()` panics there). -/
def FunctionLayout.entry (l : FunctionLayout) : Option Block :=
  l.bbs.head?

/-- Modelled from the spec: the block containing an instruction. -/
def FunctionLayout.inst_block (l : FunctionLayout) (i : Inst) : Option Block :=
  (l.bbInsts.find? (fun e => decide (i ∈ e.2))).map (fun e => e.1)

/-- Modelled from the spec: the instruction preceding `i` within its block. -/
def FunctionLayout.prev_inst (l : FunctionLayout) (i : Inst) : Option Inst :=
  (l.bbInsts.find? (fun e => decide (i ∈ e.2))).bind
    (fun e => (e.2.takeWhile (fun x => decide (x ≠ i))).getLast?)

/-- Modelled from the spec: the instruction following `i` within its block. -/
def FunctionLayout.next_inst (l : FunctionLayout) (i : Inst) : Option Inst :=
  (l.bbInsts.find? (fun e => decide (i ∈ e.2))).bind
    (fun e => ((e.2.dropWhile (fun x => decide (x ≠ i))).drop 1).head?)

/-- Modelled from the spec: append an instruction at the end of a block. -/
def FunctionLayout.append_inst (l : FunctionLayout) (i : Inst) (bb : Block) : FunctionLayout :=
  { l with bbInsts := l.bbInsts.map (fun e => if e.1 = bb then (e.1, e.2 ++ [i]) else e) }

/-- Modelled from the spec: prepend an instruction at the beginning of a block. -/
def FunctionLayout.prepend_inst (l : FunctionLayout) (i : Inst) (bb : Block) : FunctionLayout :=
  { l with bbInsts := l.bbInsts.map (fun e => if e.1 = bb then (e.1, i :: e.2) else e) }

/-- Insert `i` right after `anchor` in a single instruction list. -/
def insertAfterIn (anchor i : Inst) : List Inst → List Inst
  | [] => []
  | x :: rest => if x = anchor then x :: i :: rest else x :: insertAfterIn anchor i rest

/-- Insert `i` right before `anchor` in a single instruction list. -/
def insertBeforeIn (anchor i : Inst) : List Inst → List Inst
  | [] => []
  | x :: rest => if x = anchor then i :: x :: rest else x :: insertBeforeIn anchor i rest

/-- Modelled from the spec: insert an instruction after an anchor. -/
def FunctionLayout.insert_inst_after (l : FunctionLayout) (i anchor : Inst) : FunctionLayout :=
  { l with bbInsts := l.bbInsts.map (fun e => (e.1, insertAfterIn anchor i e.2)) }

/-- Modelled from the spec: insert an instruction before an anchor. -/
def FunctionLayout.insert_inst_before (l : FunctionLayout) (i anchor : Inst) : FunctionLayout :=
  { l with bbInsts := l.bbInsts.map (fun e => (e.1, insertBeforeIn anchor i e.2)) }

/-- Modelled from the spec (§4.3): the insertion cursor, a tagged position
driving the builder. -/
inductive FunctionInsertPos where
  | none
  | append (bb : Block)
  | prepend (bb : Block)
  | after (i : Inst)
  | before (i : Inst)
deriving DecidableEq

/-- Modelled from the spec: cursor-driven insertion.  The `None` cursor makes
insertion a programmer error (modelled as `none`); `Prepend` and `After`
advance so that successive insertions appear in user-visible order. -/
def FunctionInsertPos.addInst (p : FunctionInsertPos) (i : Inst) (l : FunctionLayout) :
    Option (FunctionLayout × FunctionInsertPos) :=
  match p with
  | .none => Option.none
  | .append bb => some (l.append_inst i bb, .append bb)
  | .prepend bb => some (l.prepend_inst i bb, .after i)
  | .after anchor => some (l.insert_inst_after i anchor, .after i)
  | .before anchor => some (l.insert_inst_before i anchor, .before anchor)

/-- Modelled from the spec: deregister an instruction from the cursor in case
the cursor anchors it, moving the anchor to a neighboring instruction or to
the containing block. -/
def FunctionInsertPos.removeInst (p : FunctionInsertPos) (i : Inst) (l : FunctionLayout) :
    FunctionInsertPos :=
  match p with
  | .after anchor =>
      if anchor = i then
        match l.prev_inst i with
        | some k => .after k
        | Option.none =>
            match l.inst_block i with
            | some bb => .prepend bb
            | Option.none => .none
      else p
  | .before anchor =>
      if anchor = i then
        match l.next_inst i with
        | some k => .before k
        | Option.none =>
            match l.inst_block i with
            | some bb => .append bb
            | Option.none => .none
      else p
  | _ => p

/-- A name of a function, process, or entity (from the source). -/
inductive UnitName where
  | Anonymous (id : Nat)
  | Local (s : String)
  | Global (s : String)
deriving DecidableEq

/-- Check whether this is a local name (from the source): anonymous and local
names can only be linked within the same module. -/
def UnitName.is_local : UnitName → Bool
  | .Anonymous _ => true
  | .Local _ => true
  | _ => false

/-- Check whether this is a global name (from the source). -/
def UnitName.is_global : UnitName → Bool
  | .Global _ => true
  | _ => false

/-- The textual rendering of a unit name (from the source Display impl). -/
def UnitName.display : UnitName → String
  | .Anonymous id => "%" ++ toString id
  | .Local n => "%" ++ n
  | .Global n => "@" ++ n

/-- The three different units that may appear in LLHD IR (from the source). -/
inductive UnitKind where
  | Function
  | Process
  | Entity
deriving DecidableEq

/-- A function, process, or entity (from the source). -/
structure UnitData where
  kind : UnitKind
  name : UnitName
  sig : Signature
  dfg : DataFlowGraph
  cfg : ControlFlowGraph
  layout : FunctionLayout
deriving DecidableEq

/-- Create a new unit (from the source `UnitData::new`).  The constructor
asserts the signature invariants of the chosen kind (a failed assertion is
`none`), eagerly creates and appends the single body block for an Entity,
and materializes the argument-value bindings. -/
def UnitData.new (kind : UnitKind) (name : UnitName) (sig : Signature) : Option UnitData :=
  let ok : Bool :=
    match kind with
    | .Function => !sig.has_outputs && sig.has_return_type
    | .Process => !sig.has_return_type
    | .Entity => !sig.has_return_type
  if ok then
    let base : UnitData :=
      { kind := kind, name := name, sig := sig,
        dfg := DataFlowGraph.new, cfg := ControlFlowGraph.new,
        layout := FunctionLayout.new }
    let placed : UnitData :=
      if kind = UnitKind.Entity then
        let step := base.cfg.add_block
        { base with cfg := step.1, layout := base.layout.append_block step.2 }
      else base
    some { placed with dfg := placed.dfg.make_args_for_signature placed.sig }
  else none

/-- Get the input argument at position `pos` (from the source
`Unit::input_arg`); an out-of-bounds position aborts (`none`). -/
def UnitData.input_arg (u : UnitData) (pos : Nat) : Option Value :=
  (u.sig.inputArgs.get? pos).bind u.dfg.arg_value

/-- Get the output argument at position `pos` (from the source
`Unit::output_arg`); an out-of-bounds position aborts (`none`). -/
def UnitData.output_arg (u : UnitData) (pos : Nat) : Option Value :=
  (u.sig.outputArgs.get? pos).bind u.dfg.arg_value

/-- The state of a `UnitBuilder` (from the source): the unit id, the unit
record being modified, and the current insertion cursor. -/
structure UnitBuilderState where
  unitId : Nat
  data : UnitData
  pos : FunctionInsertPos
deriving DecidableEq

/-- The invalid unit id used by `new_anonymous`. -/
def invalidUnitId : Nat := 4294967295

namespace UnitBuilder

/-- Create a new builder for a unit (from the source `UnitBuilder::new`): the
cursor starts at `Append` on the layout entry for an Entity and at `None`
otherwise.  Taking the entry of an empty layout panics (`none`). -/
def new (uid : Nat) (data : UnitData) : Option UnitBuilderState :=
  match data.kind with
  | .Entity =>
      match data.layout.entry with
      | some bb => some ⟨uid, data, .append bb⟩
      | Option.none => Option.none
  | _ => some ⟨uid, data, .none⟩

/-- Create a builder for a unit not yet added to a module (from the source). -/
def new_anonymous (data : UnitData) : Option UnitBuilderState :=
  new invalidUnitId data

/-- Add a new instruction (from the source `UnitBuilder::build_inst`):
allocate via the DFG, then place via the cursor; a `None` cursor is a
programmer error (`none`). -/
def build_inst (b : UnitBuilderState) (data : InstData) (ty : Ty) :
    Option (UnitBuilderState × Inst) :=
  let step := b.data.dfg.add_inst data ty
  (b.pos.addInst step.2 b.data.layout).map
    (fun q => ({ b with data := { b.data with dfg := step.1, layout := q.1 }, pos := q.2 },
               step.2))

/-- Remove an instruction (from the source `UnitBuilder::remove_inst`): the
instruction is removed from the DFG, then deregistered from the cursor using
the not-yet-updated layout, then removed from the layout. -/
def remove_inst (b : UnitBuilderState) (i : Inst) : Option UnitBuilderState :=
  (b.data.dfg.remove_inst i).map
    (fun dfg1 =>
      let pos1 := b.pos.removeInst i b.data.layout
      let layout1 := b.data.layout.remove_inst i
      { b with data := { b.data with dfg := dfg1, layout := layout1 }, pos := pos1 })

/-- The three sub-steps of `UnitBuilder::remove_inst`, used to record the
order in which they are performed. -/
inductive RemoveEvent where
  | dfg
  | cursor
  | layout
deriving DecidableEq

/-- Instrumented variant of `remove_inst` recording the order of its
sub-steps; a DFG panic stops the sequence after the first step. -/
def removeInstEvents (b : UnitBuilderState) (i : Inst) :
    List RemoveEvent × Option UnitBuilderState :=
  match b.data.dfg.remove_inst i with
  | Option.none => ([RemoveEvent.dfg], Option.none)
  | some dfg1 =>
      let pos1 := b.pos.removeInst i b.data.layout
      let layout1 := b.data.layout.remove_inst i
      ([RemoveEvent.dfg, RemoveEvent.cursor, RemoveEvent.layout],
       some { b with data := { b.data with dfg := dfg1, layout := layout1 }, pos := pos1 })

/-- One iteration of the instruction clean-up loop of
`UnitBuilder::remove_block`: replace the uses of the instruction's result (if
any) with the invalid-value sentinel, then remove the instruction from the
DFG. -/
def removeBlockStep (dfgO : Option DataFlowGraph) (i : Inst) : Option DataFlowGraph :=
  dfgO.bind (fun dfg =>
    let dfg1 :=
      match dfg.get_inst_result i with
      | some v => (dfg.replace_use v Value.invalid).1
      | Option.none => dfg
    dfg1.remove_inst i)

/-- Remove a basic block (from the source `UnitBuilder::remove_block`):
snapshot the instructions of the block, scrub the block references in the
DFG, remove the block from layout and CFG, then remove each snapshot
instruction after rewriting its result to the invalid-value sentinel. -/
def remove_block (b : UnitBuilderState) (bb : Block) : Option UnitBuilderState :=
  let insts := b.data.layout.insts bb
  let dfg1 := (b.data.dfg.remove_block_use bb).1
  let layout1 := b.data.layout.remove_block bb
  let cfg1 := b.data.cfg.remove_block bb
  (insts.foldl removeBlockStep (some dfg1)).map
    (fun dfgF => { b with data := { b.data with dfg := dfgF, layout := layout1, cfg := cfg1 } })

/-- Replace all uses of a value with another (from the source
`UnitBuilder::replace_use`, delegating to the DFG); returns how many uses
were replaced. -/
def replace_use (b : UnitBuilderState) (f t : Value) : UnitBuilderState × Nat :=
  let step := b.data.dfg.replace_use f t
  ({ b with data := { b.data with dfg := step.1 } }, step.2)

/-- The guard of `UnitBuilder::prune_if_unused`: the instruction has a result
value with zero uses. -/
def pruneCond (d : DataFlowGraph) (i : Inst) : Bool :=
  match d.get_inst_result i with
  | some r => !d.has_uses r
  | Option.none => false

mutual

/-- Remove an instruction if its value is not being read (from the source
`UnitBuilder::prune_if_unused`): when the instruction has a result with zero
uses, collect the instructions defining its operands, remove the
instruction, then recursively prune each collected instruction; the flag
says whether the instruction was removed.  The bundled bound on the number
of live instructions justifies termination. -/
def pruneIfUnusedAux (b : UnitBuilderState) (i : Inst) :
    Option {p : UnitBuilderState × Bool //
            p.1.data.dfg.insts.length ≤ b.data.dfg.insts.length} :=
  match hE : b.data.dfg.findEntry i with
  | some e =>
      match e.result with
      | some r =>
          if b.data.dfg.has_uses r then some ⟨(b, false), le_refl _⟩
          else
            match h2 : remove_inst b i with
            | some b1 =>
                match pruneListAux b1 (e.data.args.filterMap b.data.dfg.get_value_inst) with
                | some ⟨t, ht⟩ =>
                    some ⟨(t, true), by
                      have hlt : b1.data.dfg.insts.length < b.data.dfg.insts.length := by
                        have hkey : e.key = i := by simpa using List.find?_some hE
                        have hmem : e ∈ b.data.dfg.insts :=
                          List.mem_of_find?_eq_some hE
                        rw [remove_inst, Option.map_eq_some'] at h2
                        obtain ⟨d1, hd1, hb1⟩ := h2
                        have hfil : d1.insts =
                            b.data.dfg.insts.filter (fun x => decide (x.key ≠ i)) := by
                          simp only [DataFlowGraph.remove_inst] at hd1
                          split at hd1
                          · split at hd1
                            · exact absurd hd1 (by simp)
                            · simp only [Option.some.injEq] at hd1
                              rw [← hd1]
                          · simp only [Option.some.injEq] at hd1
                            rw [← hd1]
                        have hb1d : b1.data.dfg = d1 := by rw [← hb1]
                        rw [hb1d, hfil]
                        exact List.length_filter_lt_length_iff_exists.mpr
                          ⟨e, hmem, by simp [hkey]⟩
                      exact le_of_lt (lt_of_le_of_lt ht hlt)⟩
                | Option.none => Option.none
            | Option.none => Option.none
      | Option.none => some ⟨(b, false), le_refl _⟩
  | Option.none => some ⟨(b, false), le_refl _⟩
termination_by (b.data.dfg.insts.length, 0)
decreasing_by
  apply Prod.Lex.left
  have hkey : e.key = i := by simpa using List.find?_some hE
  have hmem : e ∈ b.data.dfg.insts := List.mem_of_find?_eq_some hE
  rw [remove_inst, Option.map_eq_some'] at h2
  obtain ⟨d1, hd1, hb1⟩ := h2
  have hfil : d1.insts = b.data.dfg.insts.filter (fun x => decide (x.key ≠ i)) := by
    simp only [DataFlowGraph.remove_inst] at hd1
    split at hd1
    · split at hd1
      · exact absurd hd1 (by simp)
      · simp only [Option.some.injEq] at hd1
        rw [← hd1]
    · simp only [Option.some.injEq] at hd1
      rw [← hd1]
  have hb1d : b1.data.dfg = d1 := by rw [← hb1]
  rw [hb1d, hfil]
  exact List.length_filter_lt_length_iff_exists.mpr ⟨e, hmem, by simp [hkey]⟩

/-- The recursive pruning of a list of operand-defining instructions (the
`for` loop of `UnitBuilder::prune_if_unused`). -/
def pruneListAux (b : UnitBuilderState) (l : List Inst) :
    Option {t : UnitBuilderState //
            t.data.dfg.insts.length ≤ b.data.dfg.insts.length} :=
  match l with
  | [] => some ⟨b, le_refl _⟩
  | i :: rest =>
      match pruneIfUnusedAux b i with
      | some ⟨p, h1⟩ =>
          match pruneListAux p.1 rest with
          | some ⟨t, ht⟩ => some ⟨t, le_trans ht h1⟩
          | Option.none => Option.none
      | Option.none => Option.none
termination_by (b.data.dfg.insts.length, l.length + 1)
decreasing_by
  · exact Prod.Lex.right _ (Nat.succ_pos _)
  · rcases lt_or_eq_of_le h1 with hlt | heq
    · exact Prod.Lex.left _ _ hlt
    · rw [heq]
      exact Prod.Lex.right _ (Nat.lt_succ_self _)

end

/-- Remove an instruction if its value is not being read (from the source);
`(b2, true)` means the instruction (and, recursively, the now-unused
definitions of its operands) was removed. -/
def prune_if_unused (b : UnitBuilderState) (i : Inst) : Option (UnitBuilderState × Bool) :=
  (pruneIfUnusedAux b i).map (fun p => p.1)

/-- The pruning loop as a plain function. -/
def pruneList (b : UnitBuilderState) (l : List Inst) : Option UnitBuilderState :=
  (pruneListAux b l).map (fun t => t.1)

end UnitBuilder

/-! Concrete states used to exercise the theorems (scenarios S2, S4, S5 of
the spec, and small states for the remaining operations). -/

/-- The block holding the S5 pruning chain. -/
def chainBlock : Block := ⟨0⟩

def vX : Value := ⟨0⟩

def vY : Value := ⟨1⟩

def vC : Value := ⟨2⟩

def vZ : Value := ⟨3⟩

def xI : Inst := ⟨0⟩

def yI : Inst := ⟨1⟩

def cI : Inst := ⟨2⟩

def zI : Inst := ⟨3⟩

/-- S5: `x = const 7`. -/
def xEntry : InstEntry := ⟨xI, ⟨"const", [], [], false⟩, some vX⟩

/-- S5: `y = add x, x`. -/
def yEntry : InstEntry := ⟨yI, ⟨"add", [vX, vX], [], false⟩, some vY⟩

/-- S5: the constant `1`. -/
def cEntry : InstEntry := ⟨cI, ⟨"const", [], [], false⟩, some vC⟩

/-- S5: `z = add y, 1`, with nothing using `z`. -/
def zEntry : InstEntry := ⟨zI, ⟨"add", [vY, vC], [], false⟩, some vZ⟩

/-- S5: the unit holding the unused chain. -/
def chainBuilder : UnitBuilderState :=
  ⟨0,
   ⟨.Entity, .Global "chain", ⟨[], [], none⟩,
    ⟨[xEntry, yEntry, cEntry, zEntry], [], 4, 4⟩,
    ⟨[chainBlock], 1⟩,
    ⟨[chainBlock], [(chainBlock, [xI, yI, cI, zI])]⟩⟩,
   .append chainBlock⟩

/-- S5 after removing `z`. -/
def chainB1 : UnitBuilderState :=
  ⟨0,
   ⟨.Entity, .Global "chain", ⟨[], [], none⟩,
    ⟨[xEntry, yEntry, cEntry], [], 4, 4⟩,
    ⟨[chainBlock], 1⟩,
    ⟨[chainBlock], [(chainBlock, [xI, yI, cI])]⟩⟩,
   .append chainBlock⟩

/-- S5 after removing `z` and `y`. -/
def chainB2 : UnitBuilderState :=
  ⟨0,
   ⟨.Entity, .Global "chain", ⟨[], [], none⟩,
    ⟨[xEntry, cEntry], [], 4, 4⟩,
    ⟨[chainBlock], 1⟩,
    ⟨[chainBlock], [(chainBlock, [xI, cI])]⟩⟩,
   .append chainBlock⟩

/-- S5 after removing `z`, `y` and `x`. -/
def chainB3 : UnitBuilderState :=
  ⟨0,
   ⟨.Entity, .Global "chain", ⟨[], [], none⟩,
    ⟨[cEntry], [], 4, 4⟩,
    ⟨[chainBlock], 1⟩,
    ⟨[chainBlock], [(chainBlock, [cI])]⟩⟩,
   .append chainBlock⟩

/-- S5 after the whole cascade: no instructions left. -/
def chainDone : UnitBuilderState :=
  ⟨0,
   ⟨.Entity, .Global "chain", ⟨[], [], none⟩,
    ⟨[], [], 4, 4⟩,
    ⟨[chainBlock], 1⟩,
    ⟨[chainBlock], [(chainBlock, [])]⟩⟩,
   .append chainBlock⟩

/-- S4 blocks `a`, `b`, `c`. -/
def blkA : Block := ⟨0⟩

def blkB : Block := ⟨1⟩

def blkC : Block := ⟨2⟩

def argV : Value := ⟨0⟩

def phiV : Value := ⟨1⟩

def notV : Value := ⟨2⟩

def brI : Inst := ⟨0⟩

def phiI : Inst := ⟨1⟩

def notI : Inst := ⟨2⟩

/-- S4: a process with `a → b`, a ϕ in `b` with predecessor `a`, and a user
of the ϕ result in `c`. -/
def rbBuilder : UnitBuilderState :=
  ⟨0,
   ⟨.Process, .Global "p", ⟨[Ty.int 1], [], none⟩,
    ⟨[⟨brI, ⟨"br", [], [blkB], false⟩, none⟩,
      ⟨phiI, ⟨"phi", [argV], [blkA], true⟩, some phiV⟩,
      ⟨notI, ⟨"not", [phiV], [], false⟩, some notV⟩],
     [argV], 3, 3⟩,
    ⟨[blkA, blkB, blkC], 3⟩,
    ⟨[blkA, blkB, blkC], [(blkA, [brI]), (blkB, [phiI]), (blkC, [notI])]⟩⟩,
   .none⟩

/-- S4 after `remove_block(b)`: the branch target is the invalid-block
sentinel, the ϕ is gone, and the ϕ result was scrubbed to the invalid-value
sentinel in its user. -/
def rbResult : UnitBuilderState :=
  ⟨0,
   ⟨.Process, .Global "p", ⟨[Ty.int 1], [], none⟩,
    ⟨[⟨brI, ⟨"br", [], [Block.invalid], false⟩, none⟩,
      ⟨notI, ⟨"not", [Value.invalid], [], false⟩, some notV⟩],
     [argV], 3, 3⟩,
    ⟨[blkA, blkC], 3⟩,
    ⟨[blkA, blkC], [(blkA, [brI]), (blkC, [notI])]⟩⟩,
   .none⟩

/-- A one-instruction unit for the replace-use scenario (S2-like). -/
def ruBuilder : UnitBuilderState :=
  ⟨0,
   ⟨.Process, .Global "q", ⟨[], [], none⟩,
    ⟨[⟨⟨0⟩, ⟨"not", [⟨5⟩], [], false⟩, some ⟨6⟩⟩], [], 1, 7⟩,
    ⟨[⟨0⟩], 1⟩,
    ⟨[⟨0⟩], [(⟨0⟩, [⟨0⟩])]⟩⟩,
   .none⟩

/-- A unit whose cursor anchors the instruction about to be removed. -/
def riBuilder : UnitBuilderState :=
  ⟨0,
   ⟨.Process, .Global "r", ⟨[], [], none⟩,
    ⟨[⟨⟨0⟩, ⟨"halt", [], [], false⟩, none⟩], [], 1, 0⟩,
    ⟨[⟨0⟩], 1⟩,
    ⟨[⟨0⟩], [(⟨0⟩, [⟨0⟩])]⟩⟩,
   .after ⟨0⟩⟩

/-- A conforming Entity/Process signature: `(i1 in, i1 out)`, no return. -/
def sigEnt : Signature := ⟨[Ty.int 1], [Ty.int 1], none⟩

/-- A conforming Function signature: `(i32) → i32`. -/
def sigFun : Signature := ⟨[Ty.int 32], [], some (Ty.int 32)⟩

/-- A Function signature made illegal by an output argument. -/
def sigBadOut : Signature := ⟨[], [Ty.int 1], some (Ty.int 1)⟩

/-- A Function signature made illegal by the missing return type. -/
def sigNoRet : Signature := ⟨[], [], none⟩

/-- A unit with two bound input arguments and one bound output argument. -/
def argUnit : UnitData :=
  ⟨.Process, .Global "u", ⟨[Ty.int 1, Ty.int 2], [Ty.int 3], none⟩,
   ⟨[], [⟨0⟩, ⟨1⟩, ⟨2⟩], 0, 3⟩, ⟨[], 0⟩, ⟨[], []⟩⟩

/-- A freshly constructed empty Entity record. -/
def entData : UnitData :=
  ⟨.Entity, .Global "top", ⟨[], [], none⟩,
   ⟨[], [], 0, 0⟩, ⟨[⟨0⟩], 1⟩, ⟨[⟨0⟩], [(⟨0⟩, [])]⟩⟩

/-- A freshly constructed empty Process record. -/
def procData : UnitData :=
  ⟨.Process, .Global "pr", ⟨[], [], none⟩,
   ⟨[], [], 0, 0⟩, ⟨[], 0⟩, ⟨[], []⟩⟩

/-! Helper lemmas about the pruning recursion and instruction removal. -/

open UnitBuilder

theorem pruneList_nil (b : UnitBuilderState) : pruneList b [] = some b := by
  rw [pruneList, pruneListAux]
  simp

theorem pruneList_cons (b : UnitBuilderState) (i : Inst) (rest : List Inst) :
    pruneList b (i :: rest) =
      (prune_if_unused b i).bind (fun p => pruneList p.1 rest) := by
  rw [pruneList, pruneListAux]
  simp only [prune_if_unused, pruneList]
  cases hp : pruneIfUnusedAux b i with
  | none => simp
  | some q =>
      obtain ⟨p, h1⟩ := q
      cases ht : pruneListAux p.1 rest with
      | none => simp [ht]
      | some t => simp [ht]

theorem pruneCond_true_iff (d : DataFlowGraph) (i : Inst) :
    pruneCond d i = true ↔
      ∃ r, d.get_inst_result i = some r ∧ d.has_uses r = false := by
  rw [pruneCond]
  cases hg : d.get_inst_result i <;> simp [hg]

theorem findEntry_eq_none_iff (d : DataFlowGraph) (i : Inst) :
    d.findEntry i = Option.none ↔ ∀ e ∈ d.insts, e.key ≠ i := by
  rw [DataFlowGraph.findEntry]
  rw [List.find?_eq_none]
  simp

theorem no_uses_no_mem (d : DataFlowGraph) (r : Value) (h : d.has_uses r = false) :
    ∀ e ∈ d.insts, r ∉ e.data.args := by
  intro e he
  rw [DataFlowGraph.has_uses, DataFlowGraph.uses] at h
  simp only [Bool.not_eq_false', List.isEmpty_iff, List.map_eq_nil_iff] at h
  have := List.filter_eq_nil_iff.mp h e he
  simpa using this

theorem dfg_remove_inst_insts (d d1 : DataFlowGraph) (i : Inst)
    (h : d.remove_inst i = some d1) :
    d1 = { d with insts := d.insts.filter (fun x => decide (x.key ≠ i)) } := by
  rw [DataFlowGraph.remove_inst] at h
  split at h
  · split at h
    · exact absurd h (by simp)
    · simp only [Option.some.injEq] at h
      rw [← h]
  · simp only [Option.some.injEq] at h
    rw [← h]

theorem dfg_remove_inst_some (d : DataFlowGraph) (i : Inst) (r : Value)
    (hg : d.get_inst_result i = some r) (hu : d.has_uses r = false) :
    d.remove_inst i = some { d with insts := d.insts.filter (fun x => decide (x.key ≠ i)) } := by
  have hany : (d.insts.filter (fun e => decide (e.key ≠ i))).any
      (fun e => decide (r ∈ e.data.args)) = false := by
    simp only [List.any_eq_false, List.mem_filter, decide_eq_true_eq, and_imp]
    intro e he hne
    exact no_uses_no_mem d r hu e he
  rw [DataFlowGraph.remove_inst, hg]
  simp only [hany, Bool.false_eq_true, if_false]

theorem remove_inst_inv (b b1 : UnitBuilderState) (i : Inst)
    (h : remove_inst b i = some b1) :
    b1.data.dfg.insts = b.data.dfg.insts.filter (fun x => decide (x.key ≠ i)) := by
  rw [remove_inst, Option.map_eq_some'] at h
  obtain ⟨d1, hd1, hb1⟩ := h
  have := dfg_remove_inst_insts _ _ _ hd1
  rw [← hb1, this]

theorem remove_inst_len_lt (b b1 : UnitBuilderState) (i : Inst) (e : InstEntry)
    (hE : b.data.dfg.findEntry i = some e)
    (h : remove_inst b i = some b1) :
    b1.data.dfg.insts.length < b.data.dfg.insts.length := by
  rw [remove_inst_inv b b1 i h]
  have hkey : e.key = i := by simpa using List.find?_some hE
  exact List.length_filter_lt_length_iff_exists.mpr
    ⟨e, List.mem_of_find?_eq_some hE, by simp [hkey]⟩

theorem prune_len_le (b : UnitBuilderState) (i : Inst) (p : UnitBuilderState × Bool)
    (h : prune_if_unused b i = some p) :
    p.1.data.dfg.insts.length ≤ b.data.dfg.insts.length := by
  rw [prune_if_unused] at h
  cases hq : pruneIfUnusedAux b i with
  | none => rw [hq] at h; cases h
  | some q =>
      rw [hq] at h
      simp only [Option.map_some', Option.some.injEq] at h
      rw [← h]
      exact q.2

theorem pruneList_len_le (b : UnitBuilderState) (l : List Inst) (t : UnitBuilderState)
    (h : pruneList b l = some t) :
    t.data.dfg.insts.length ≤ b.data.dfg.insts.length := by
  rw [pruneList] at h
  cases hq : pruneListAux b l with
  | none => rw [hq] at h; cases h
  | some q =>
      rw [hq] at h
      simp only [Option.map_some', Option.some.injEq] at h
      rw [← h]
      exact q.2

theorem prune_of_cond_false (b : UnitBuilderState) (i : Inst)
    (h : pruneCond b.data.dfg i = false) :
    prune_if_unused b i = some (b, false) := by
  rw [prune_if_unused, pruneIfUnusedAux]
  split
  next e hE =>
    split
    next r hR =>
      split
      next hu => simp
      next hu =>
        exfalso
        rw [pruneCond, DataFlowGraph.get_inst_result, hE] at h
        simp only [Option.some_bind] at h
        rw [hR] at h
        simp at h
        exact hu (by simp [h])
    next hR => simp
  next hE => simp

theorem prune_true_inv (b : UnitBuilderState) (i : Inst) (p : UnitBuilderState)
    (h : prune_if_unused b i = some (p, true)) :
    ∃ e r b1, b.data.dfg.findEntry i = some e ∧ e.result = some r ∧
      b.data.dfg.has_uses r = false ∧ remove_inst b i = some b1 ∧
      pruneList b1 (e.data.args.filterMap b.data.dfg.get_value_inst) = some p := by
  rw [prune_if_unused, pruneIfUnusedAux] at h
  split at h
  next e hE =>
    split at h
    next r hR =>
      split at h
      next hu => simp at h
      next hu =>
        split at h
        next b1 h2 =>
          split at h
          next t ht hq =>
            simp only [Option.map_some', Option.some.injEq, Prod.mk.injEq] at h
            refine ⟨e, r, b1, hE, hR, by simpa using hu, h2, ?_⟩
            rw [pruneList, hq]
            simp [h.1]
          next hq => simp at h
        next h2 => simp at h
    next hR => simp at h
  next hE => simp at h

theorem prune_false_inv (b : UnitBuilderState) (i : Inst) (p : UnitBuilderState)
    (h : prune_if_unused b i = some (p, false)) :
    p = b ∧ pruneCond b.data.dfg i = false := by
  rw [prune_if_unused, pruneIfUnusedAux] at h
  split at h
  next e hE =>
    split at h
    next r hR =>
      split at h
      next hu =>
        simp only [Option.map_some', Option.some.injEq, Prod.mk.injEq] at h
        refine ⟨h.1.symm, ?_⟩
        rw [pruneCond, DataFlowGraph.get_inst_result, hE]
        simp only [Option.some_bind]
        rw [hR]
        simp [hu]
      next hu =>
        split at h
        next b1 h2 =>
          split at h
          next t ht hq => simp at h
          next hq => simp at h
        next h2 => simp at h
    next hR =>
      simp only [Option.map_some', Option.some.injEq, Prod.mk.injEq] at h
      refine ⟨h.1.symm, ?_⟩
      rw [pruneCond, DataFlowGraph.get_inst_result, hE]
      simp only [Option.some_bind]
      rw [hR]
  next hE =>
    simp only [Option.map_some', Option.some.injEq, Prod.mk.injEq] at h
    refine ⟨h.1.symm, ?_⟩
    rw [pruneCond, DataFlowGraph.get_inst_result, hE]
    rfl

theorem prune_step_true (b : UnitBuilderState) (i : Inst) (e : InstEntry) (r : Value)
    (c : UnitBuilderState)
    (hE : b.data.dfg.findEntry i = some e) (hR : e.result = some r)
    (hu : b.data.dfg.has_uses r = false) (h2 : remove_inst b i = some c) :
    prune_if_unused b i =
      (pruneList c (e.data.args.filterMap b.data.dfg.get_value_inst)).map
        (fun t => (t, true)) := by
  rw [prune_if_unused, pruneIfUnusedAux]
  split
  next e2 hE2 =>
    rw [hE] at hE2
    injection hE2 with he
    subst he
    split
    next r2 hR2 =>
      rw [hR] at hR2
      injection hR2 with hr
      subst hr
      split
      next hu2 => rw [hu] at hu2; cases hu2
      next hu2 =>
        split
        next b1 h22 =>
          rw [h2] at h22
          injection h22 with hb
          subst hb
          rw [pruneList]
          split
          next t ht hq =>
            rw [hq]
            simp
          next hq => rw [hq]; simp
        next h22 => rw [h2] at h22; cases h22
    next hR2 => rw [hR] at hR2; cases hR2
  next hE2 => rw [hE] at hE2; cases hE2

theorem remove_inst_subset (b b1 : UnitBuilderState) (i : Inst)
    (h : remove_inst b i = some b1) :
    b1.data.dfg.insts ⊆ b.data.dfg.insts := by
  rw [remove_inst_inv b b1 i h]
  exact fun a ha => List.mem_of_mem_filter ha

theorem prune_dichotomy (b : UnitBuilderState) (i : Inst) (p : UnitBuilderState × Bool)
    (h : prune_if_unused b i = some p) :
    p = (b, false) ∨
      (p.2 = true ∧ p.1.data.dfg.insts.length < b.data.dfg.insts.length) := by
  obtain ⟨p1, p2⟩ := p
  cases p2 with
  | false =>
      left
      obtain ⟨hb, _⟩ := prune_false_inv b i p1 h
      rw [hb]
  | true =>
      right
      refine ⟨rfl, ?_⟩
      obtain ⟨e, r, b1, hE, hR, hu, h2, hpl⟩ := prune_true_inv b i p1 h
      exact lt_of_le_of_lt (pruneList_len_le _ _ _ hpl) (remove_inst_len_lt b b1 i e hE h2)

theorem prune_total :
    ∀ (n : Nat) (b : UnitBuilderState), b.data.dfg.insts.length ≤ n →
      (∀ i, ∃ p, prune_if_unused b i = some p ∧
          p.1.data.dfg.insts ⊆ b.data.dfg.insts) ∧
      (∀ l, ∃ t, pruneList b l = some t ∧
          t.data.dfg.insts ⊆ b.data.dfg.insts) := by
  intro n
  induction n using Nat.strong_induction_on with
  | _ n ih =>
      intro b hlen
      have hprune : ∀ i, ∃ p, prune_if_unused b i = some p ∧
          p.1.data.dfg.insts ⊆ b.data.dfg.insts := by
        intro i
        cases hc : pruneCond b.data.dfg i with
        | false =>
            exact ⟨(b, false), prune_of_cond_false b i hc, fun a ha => ha⟩
        | true =>
            obtain ⟨r, hg, hu⟩ := (pruneCond_true_iff b.data.dfg i).mp hc
            obtain ⟨e, hE, hR⟩ : ∃ e, b.data.dfg.findEntry i = some e ∧
                e.result = some r := by
              rw [DataFlowGraph.get_inst_result] at hg
              cases hE : b.data.dfg.findEntry i with
              | none => rw [hE] at hg; cases hg
              | some e => rw [hE] at hg; exact ⟨e, rfl, hg⟩
            have hd1 := dfg_remove_inst_some b.data.dfg i r hg hu
            have h2 : ∃ b1, remove_inst b i = some b1 := by
              rw [remove_inst, hd1]
              exact ⟨_, rfl⟩
            obtain ⟨b1, h2⟩ := h2
            have hlt : b1.data.dfg.insts.length < b.data.dfg.insts.length :=
              remove_inst_len_lt b b1 i e hE h2
            have hb1n : b1.data.dfg.insts.length < n := lt_of_lt_of_le hlt hlen
            obtain ⟨t, ht, hts⟩ :=
              ((ih b1.data.dfg.insts.length hb1n b1 (le_refl _)).2
                (e.data.args.filterMap b.data.dfg.get_value_inst))
            refine ⟨(t, true), ?_, ?_⟩
            · rw [prune_step_true b i e r b1 hE hR hu h2, ht]
              rfl
            · exact fun a ha => remove_inst_subset b b1 i h2 (hts ha)
      refine ⟨hprune, ?_⟩
      intro l
      induction l with
      | nil => exact ⟨b, pruneList_nil b, fun a ha => ha⟩
      | cons i rest ihl =>
          obtain ⟨p, hp, hps⟩ := hprune i
          rcases prune_dichotomy b i p hp with hcase | hcase
          · obtain ⟨t, ht, hts⟩ := ihl
            refine ⟨t, ?_, hts⟩
            rw [pruneList_cons, hp, hcase]
            simpa using ht
          · have hpn : p.1.data.dfg.insts.length < n := lt_of_lt_of_le hcase.2 hlen
            obtain ⟨t, ht, hts⟩ :=
              ((ih p.1.data.dfg.insts.length hpn p.1 (le_refl _)).2 rest)
            refine ⟨t, ?_, fun a ha => hps (hts ha)⟩
            rw [pruneList_cons, hp]
            simpa using ht

theorem prune_some (b : UnitBuilderState) (i : Inst) :
    ∃ p, prune_if_unused b i = some p ∧
      p.1.data.dfg.insts ⊆ b.data.dfg.insts :=
  (prune_total b.data.dfg.insts.length b (le_refl _)).1 i

theorem pruneList_subset_of_eq (b : UnitBuilderState) (l : List Inst)
    (t : UnitBuilderState) (h : pruneList b l = some t) :
    t.data.dfg.insts ⊆ b.data.dfg.insts := by
  obtain ⟨t2, h2, hs⟩ := (prune_total b.data.dfg.insts.length b (le_refl _)).2 l
  rw [h2] at h
  injection h with he
  rw [← he]
  exact hs

theorem prune_chainB2_x : prune_if_unused chainB2 xI = some (chainB3, true) := by
  rw [prune_step_true chainB2 xI xEntry vX chainB3 (by decide) (by decide)
    (by decide) (by decide)]
  have hl : xEntry.data.args.filterMap chainB2.data.dfg.get_value_inst = [] := by decide
  rw [hl, pruneList_nil]
  rfl

theorem prune_chainB3_x : prune_if_unused chainB3 xI = some (chainB3, false) :=
  prune_of_cond_false chainB3 xI (by decide)

theorem prune_chainB1_y : prune_if_unused chainB1 yI = some (chainB3, true) := by
  rw [prune_step_true chainB1 yI yEntry vY chainB2 (by decide) (by decide)
    (by decide) (by decide)]
  have hl : yEntry.data.args.filterMap chainB1.data.dfg.get_value_inst = [xI, xI] := by
    decide
  rw [hl, pruneList_cons, prune_chainB2_x]
  simp only [Option.some_bind]
  rw [pruneList_cons, prune_chainB3_x]
  simp only [Option.some_bind]
  rw [pruneList_nil]
  rfl

theorem prune_chainB3_c : prune_if_unused chainB3 cI = some (chainDone, true) := by
  rw [prune_step_true chainB3 cI cEntry vC chainDone (by decide) (by decide)
    (by decide) (by decide)]
  have hl : cEntry.data.args.filterMap chainB3.data.dfg.get_value_inst = [] := by decide
  rw [hl, pruneList_nil]
  rfl

theorem chainEval : prune_if_unused chainBuilder zI = some (chainDone, true) := by
  rw [prune_step_true chainBuilder zI zEntry vZ chainB1 (by decide) (by decide)
    (by decide) (by decide)]
  have hl : zEntry.data.args.filterMap chainBuilder.data.dfg.get_value_inst = [yI, cI] := by
    decide
  rw [hl, pruneList_cons, prune_chainB1_y]
  simp only [Option.some_bind]
  rw [pruneList_cons, prune_chainB3_c]
  simp only [Option.some_bind]
  rw [pruneList_nil]
  rfl

/-- C2: `prune_if_unused(inst)` removes the instruction and returns true
exactly when the instruction has a result value with zero uses; on removal it
recursively prunes the instructions defining its operands, so the unused S5
chain `x = const 7; y = add x, x; z = add y, 1` is removed entirely (down to
zero instructions) by the single call on `z`. -/
theorem prune_if_unused_spec (b : UnitBuilderState) (i : Inst) :
    ∃ p, prune_if_unused b i = some p ∧
      (p.2 = true ↔ ∃ r, b.data.dfg.get_inst_result i = some r ∧
          b.data.dfg.has_uses r = false) ∧
      (p.2 = true → ∀ e ∈ p.1.data.dfg.insts, e.key ≠ i) ∧
      (p.2 = false → p.1 = b) ∧
      (prune_if_unused chainBuilder zI = some (chainDone, true) ∧
        chainDone.data.dfg.insts = []) := by
  obtain ⟨p, hp, hsub⟩ := prune_some b i
  obtain ⟨p1, p2⟩ := p
  refine ⟨(p1, p2), hp, ?_, ?_, ?_, chainEval, by decide⟩
  · constructor
    · intro ht
      have ht2 : p2 = true := ht
      subst ht2
      obtain ⟨e, r, b1, hE, hR, hu, h2, hpl⟩ := prune_true_inv b i p1 hp
      refine ⟨r, ?_, hu⟩
      rw [DataFlowGraph.get_inst_result, hE]
      simpa using hR
    · rintro ⟨r, hg, hu⟩
      cases hb : p2 with
      | true => rfl
      | false =>
          rw [hb] at hp
          obtain ⟨hpb, hc⟩ := prune_false_inv b i p1 hp
          have : pruneCond b.data.dfg i = true :=
            (pruneCond_true_iff b.data.dfg i).mpr ⟨r, hg, hu⟩
          rw [hc] at this
          cases this
  · intro ht
    have ht2 : p2 = true := ht
    subst ht2
    obtain ⟨e, r, b1, hE, hR, hu, h2, hpl⟩ := prune_true_inv b i p1 hp
    intro a ha
    have hb1 : a ∈ b1.data.dfg.insts := pruneList_subset_of_eq b1 _ p1 hpl ha
    rw [remove_inst_inv b b1 i h2] at hb1
    simpa using (List.mem_filter.mp hb1).2
  · intro hf
    have hf2 : p2 = false := hf
    subst hf2
    exact (prune_false_inv b i p1 hp).1

/-- C7: `prune_if_unused` is idempotent: whatever the first call did, a
second call on the same instruction returns false and leaves the unit
unchanged. -/
theorem prune_idempotent (b : UnitBuilderState) (i : Inst) :
    ∃ p, prune_if_unused b i = some p ∧
      prune_if_unused p.1 i = some (p.1, false) := by
  obtain ⟨p, hp, hsub⟩ := prune_some b i
  obtain ⟨p1, p2⟩ := p
  refine ⟨(p1, p2), hp, ?_⟩
  cases p2 with
  | false =>
      obtain ⟨hb, hc⟩ := prune_false_inv b i p1 hp
      rw [hb]
      exact prune_of_cond_false b i hc
  | true =>
      obtain ⟨e, r, b1, hE, hR, hu, h2, hpl⟩ := prune_true_inv b i p1 hp
      have habs : ∀ a ∈ p1.data.dfg.insts, a.key ≠ i := by
        intro a ha
        have hb1 : a ∈ b1.data.dfg.insts := pruneList_subset_of_eq b1 _ p1 hpl ha
        rw [remove_inst_inv b b1 i h2] at hb1
        simpa using (List.mem_filter.mp hb1).2
      have hcond : pruneCond p1.data.dfg i = false := by
        have hfe : p1.data.dfg.findEntry i = Option.none :=
          (findEntry_eq_none_iff _ _).mpr habs
        rw [pruneCond, DataFlowGraph.get_inst_result, hfe]
        rfl
      exact prune_of_cond_false p1 i hcond

/-- C8: `Anonymous(id)` displays as a percent sign followed by the decimal
id (Anonymous 42 prints "%42"), `Local(s)` as percent-s, `Global(s)` as
at-s; `is_local` holds exactly for Anonymous and Local, and `is_global` is
the negation of `is_local`. -/
theorem unit_name_spec (id : Nat) (s : String) (n : UnitName) :
    UnitName.display (UnitName.Anonymous id) = "%" ++ toString id ∧
    UnitName.display (UnitName.Local s) = "%" ++ s ∧
    UnitName.display (UnitName.Global s) = "@" ++ s ∧
    UnitName.display (UnitName.Anonymous 42) = "%42" ∧
    UnitName.is_local (UnitName.Anonymous id) = true ∧
    UnitName.is_local (UnitName.Local s) = true ∧
    UnitName.is_local (UnitName.Global s) = false ∧
    UnitName.is_global n = !(UnitName.is_local n) := by
  refine ⟨rfl, rfl, rfl, by decide, rfl, rfl, rfl, ?_⟩
  cases n <;> rfl

/-- C4 (amended): `remove_inst` removes the instruction from the DFG first,
then deregisters it from the cursor (consulting the not-yet-updated layout),
and removes it from the layout last; the instrumented variant computes the
same result as `remove_inst`. -/
theorem remove_inst_order (b : UnitBuilderState) (i : Inst) :
    (removeInstEvents b i).2 = remove_inst b i ∧
    ((remove_inst b i).isSome = true →
      (removeInstEvents b i).1 =
        [RemoveEvent.dfg, RemoveEvent.cursor, RemoveEvent.layout]) := by
  rw [removeInstEvents, remove_inst]
  cases h : b.data.dfg.remove_inst i <;> simp

/-- C4 counterexample: on a concrete unit the recorded order of the
sub-steps of a successful `remove_inst` is not
cursor-then-layout-then-DFG. -/
theorem remove_inst_order_counterexample :
    (removeInstEvents riBuilder ⟨0⟩).1 ≠
      [RemoveEvent.cursor, RemoveEvent.layout, RemoveEvent.dfg] ∧
    (removeInstEvents riBuilder ⟨0⟩).2.isSome = true := by decide

/-- C4 witness: the amended order at a concrete successful removal. -/
theorem remove_inst_order_witness :
    (removeInstEvents riBuilder ⟨0⟩).1 =
      [RemoveEvent.dfg, RemoveEvent.cursor, RemoveEvent.layout] :=
  (remove_inst_order riBuilder ⟨0⟩).2 (by decide)

/-- C3 (amended): for distinct values a and v, after `replace_use(a, v)` the
use set of a is empty, every instruction that used a now uses v, and the
returned count is the number of operand slots that held a (each changed to
v); for a = v the operand lists are unchanged, so the use set of a keeps its
prior users. -/
theorem replace_use_spec (b : UnitBuilderState) (a v : Value) (hne : a ≠ v) :
    ((UnitBuilder.replace_use b a v).1.data.dfg.uses a = []) ∧
    (∀ e ∈ b.data.dfg.insts, a ∈ e.data.args →
      ∃ e2 ∈ (UnitBuilder.replace_use b a v).1.data.dfg.insts,
        e2.key = e.key ∧ v ∈ e2.data.args) ∧
    ((UnitBuilder.replace_use b a v).2 =
      (b.data.dfg.insts.map (fun e => e.data.args.count a)).sum) := by
  have key : ∀ (args : List Value), a ∉ args.map (fun x => if x = a then v else x) := by
    intro args hmem
    obtain ⟨x, hx, heq⟩ := List.mem_map.mp hmem
    by_cases hxa : x = a
    · rw [if_pos hxa] at heq
      exact hne heq.symm
    · rw [if_neg hxa] at heq
      exact hxa heq
  refine ⟨?_, ?_, rfl⟩
  · rw [UnitBuilder.replace_use]
    simp only [DataFlowGraph.replace_use, DataFlowGraph.uses, InstData.replaceArgs]
    rw [List.map_eq_nil_iff, List.filter_eq_nil_iff]
    intro e he
    obtain ⟨e0, he0, rfl⟩ := List.mem_map.mp he
    simpa using key e0.data.args
  · intro e he hmem
    refine ⟨{ e with data := e.data.replaceArgs a v }, ?_, rfl, ?_⟩
    · rw [UnitBuilder.replace_use]
      simp only [DataFlowGraph.replace_use]
      exact List.mem_map.mpr ⟨e, he, rfl⟩
    · rw [InstData.replaceArgs]
      exact List.mem_map.mpr ⟨a, hmem, if_pos rfl⟩

/-- C3 counterexample: with a = b (here the value 5), `replace_use(a, a)`
leaves the operand lists unchanged, so the use set of a is not emptied. -/
theorem replace_use_counterexample :
    ¬ ((UnitBuilder.replace_use ruBuilder ⟨5⟩ ⟨5⟩).1.data.dfg.uses ⟨5⟩ = []) := by
  decide

/-- C3 witness: the amended statement at a concrete pair of distinct
values. -/
theorem replace_use_witness :
    (UnitBuilder.replace_use ruBuilder ⟨5⟩ ⟨7⟩).1.data.dfg.uses ⟨5⟩ = [] :=
  (replace_use_spec ruBuilder ⟨5⟩ ⟨7⟩ (by decide)).1

/-- C5: for a signature without return type, an Entity is created with
exactly one block (the eagerly created body) and one bound argument value
per signature argument, while Process units (and Function units, for their
conforming signatures) are created with zero blocks. -/
theorem unit_new_blocks (name : UnitName) (sig : Signature)
    (h : sig.has_return_type = false) :
    (∃ u, UnitData.new UnitKind.Entity name sig = some u ∧
      u.layout.bbs.length = 1 ∧
      u.dfg.argValues.length = sig.inputs.length + sig.outputs.length) ∧
    (∀ u, UnitData.new UnitKind.Process name sig = some u → u.layout.bbs = []) ∧
    (∀ sg, sg.has_outputs = false → sg.has_return_type = true →
      ∀ u, UnitData.new UnitKind.Function name sg = some u → u.layout.bbs = []) := by
  refine ⟨?_, ?_, ?_⟩
  · rw [UnitData.new]
    simp only [h, Bool.not_false, if_true]
    refine ⟨_, rfl, ?_, ?_⟩
    · rfl
    · simp [DataFlowGraph.make_args_for_signature]
  · intro u hu
    rw [UnitData.new] at hu
    simp only [h, Bool.not_false, if_true] at hu
    simp only [Option.some.injEq] at hu
    rw [← hu]
    rfl
  · intro sg ho hr u hu
    rw [UnitData.new] at hu
    simp only [ho, hr, Bool.not_false, Bool.and_true, if_true] at hu
    simp only [Option.some.injEq] at hu
    rw [← hu]
    rfl

/-- C5 witness: constructing an Entity over `(i1 in, i1 out)` yields one
block and two bound argument values. -/
theorem unit_new_blocks_witness :
    (UnitData.new UnitKind.Entity (UnitName.Global "top") sigEnt).map
      (fun u => (u.layout.bbs.length, u.dfg.argValues.length)) = some (1, 2) := by
  obtain ⟨u, hu, h1, h2⟩ :=
    (unit_new_blocks (UnitName.Global "top") sigEnt (by decide)).1
  rw [hu]
  simp only [Option.map_some', Option.some.injEq]
  rw [h1, h2]
  rfl

/-- C6: `UnitData::new` aborts when the signature violates the kind
invariants — a Function with outputs or without return type, a Process or
Entity with a return type — and succeeds on conforming signatures. -/
theorem unit_new_asserts (name : UnitName) (sig : Signature) :
    (sig.has_outputs = true → UnitData.new UnitKind.Function name sig = none) ∧
    (sig.has_return_type = false → UnitData.new UnitKind.Function name sig = none) ∧
    (sig.has_return_type = true →
      UnitData.new UnitKind.Process name sig = none ∧
      UnitData.new UnitKind.Entity name sig = none) ∧
    (sig.has_outputs = false → sig.has_return_type = true →
      (UnitData.new UnitKind.Function name sig).isSome = true) ∧
    (sig.has_return_type = false →
      (UnitData.new UnitKind.Process name sig).isSome = true ∧
      (UnitData.new UnitKind.Entity name sig).isSome = true) := by
  refine ⟨?_, ?_, ?_, ?_, ?_⟩
  · intro h
    rw [UnitData.new]
    simp [h]
  · intro h
    rw [UnitData.new]
    simp [h]
  · intro h
    constructor <;> (rw [UnitData.new]; simp [h])
  · intro h1 h2
    rw [UnitData.new]
    simp [h1, h2]
  · intro h
    constructor <;> (rw [UnitData.new]; simp [h])

/-- C6 witness: the four concrete abort/success cases. -/
theorem unit_new_asserts_witness :
    UnitData.new UnitKind.Function (UnitName.Global "f") sigBadOut = none ∧
    UnitData.new UnitKind.Function (UnitName.Global "f") sigNoRet = none ∧
    UnitData.new UnitKind.Process (UnitName.Global "f") sigFun = none ∧
    (UnitData.new UnitKind.Function (UnitName.Global "f") sigFun).isSome = true :=
  ⟨(unit_new_asserts (UnitName.Global "f") sigBadOut).1 (by decide),
   (unit_new_asserts (UnitName.Global "f") sigNoRet).2.1 (by decide),
   ((unit_new_asserts (UnitName.Global "f") sigFun).2.2.1 (by decide)).1,
   (unit_new_asserts (UnitName.Global "f") sigFun).2.2.2.1 (by decide) (by decide)⟩

/-- C9: `input_arg(pos)` / `output_arg(pos)` return the value bound to the
pos-th input / output argument when pos is within bounds of the respective
signature list, and abort (`none`) when out of bounds. -/
theorem arg_position_spec (u : UnitData)
    (h : u.dfg.argValues.length = u.sig.inputs.length + u.sig.outputs.length)
    (pos : Nat) :
    (pos < u.sig.inputs.length →
      u.input_arg pos = u.dfg.argValues.get? pos ∧ (u.input_arg pos).isSome = true) ∧
    (u.sig.inputs.length ≤ pos → u.input_arg pos = none) ∧
    (pos < u.sig.outputs.length →
      u.output_arg pos = u.dfg.argValues.get? (u.sig.inputs.length + pos) ∧
        (u.output_arg pos).isSome = true) ∧
    (u.sig.outputs.length ≤ pos → u.output_arg pos = none) := by
  refine ⟨?_, ?_, ?_, ?_⟩
  · intro hp
    have hins : u.input_arg pos = u.dfg.argValues.get? pos := by
      rw [UnitData.input_arg, Signature.inputArgs]
      rw [List.get?_map, List.get?_range hp]
      simp [DataFlowGraph.arg_value]
    refine ⟨hins, ?_⟩
    rw [hins]
    have hlt : pos < u.dfg.argValues.length := by omega
    rw [List.get?_eq_get hlt]
    rfl
  · intro hp
    rw [UnitData.input_arg, Signature.inputArgs]
    rw [List.get?_map]
    have hn : (List.range u.sig.inputs.length).get? pos = none := by
      rw [List.get?_eq_none]
      simpa using hp
    rw [hn]
    rfl
  · intro hp
    have houts : u.output_arg pos =
        u.dfg.argValues.get? (u.sig.inputs.length + pos) := by
      rw [UnitData.output_arg, Signature.outputArgs]
      rw [List.get?_map, List.get?_range hp]
      simp [DataFlowGraph.arg_value]
    refine ⟨houts, ?_⟩
    rw [houts]
    have hlt : u.sig.inputs.length + pos < u.dfg.argValues.length := by omega
    rw [List.get?_eq_get hlt]
    rfl
  · intro hp
    rw [UnitData.output_arg, Signature.outputArgs]
    rw [List.get?_map]
    have hn : (List.range u.sig.outputs.length).get? pos = none := by
      rw [List.get?_eq_none]
      simpa using hp
    rw [hn]
    rfl

/-- C9 witness: concrete in-bounds and out-of-bounds argument accesses. -/
theorem arg_position_witness :
    argUnit.input_arg 0 = some ⟨0⟩ ∧ argUnit.output_arg 0 = some ⟨2⟩ ∧
    argUnit.input_arg 5 = none ∧ argUnit.output_arg 1 = none := by
  have h := arg_position_spec argUnit (by decide)
  refine ⟨?_, ?_, (h 5).2.1 (by decide), (h 1).2.2.2 (by decide)⟩
  · have h0 := (h 0).1 (by decide)
    rw [h0.1]
    decide
  · have h0 := (h 0).2.2.1 (by decide)
    rw [h0.1]
    decide

/-- C10: a freshly created builder starts with cursor `Append` at the layout
entry for an Entity unit (so instructions can be inserted immediately), and
with cursor `None` for Function and Process units (so inserting before any
cursor move is a programmer error). -/
theorem builder_cursor_spec (uid : Nat) (data : UnitData) :
    (UnitBuilder.new_anonymous data = UnitBuilder.new invalidUnitId data) ∧
    (data.kind = UnitKind.Entity → ∀ b, UnitBuilder.new uid data = some b →
      ∃ e, data.layout.entry = some e ∧ b.pos = FunctionInsertPos.append e ∧
        ∀ idata ty, (UnitBuilder.build_inst b idata ty).isSome = true) ∧
    (data.kind ≠ UnitKind.Entity →
      UnitBuilder.new uid data = some ⟨uid, data, FunctionInsertPos.none⟩ ∧
      (∀ b, UnitBuilder.new uid data = some b →
        ∀ idata ty, UnitBuilder.build_inst b idata ty = none)) := by
  refine ⟨rfl, ?_, ?_⟩
  · intro hk b hb
    rw [UnitBuilder.new, hk] at hb
    cases hE : data.layout.entry with
    | none => rw [hE] at hb; cases hb
    | some e =>
        rw [hE] at hb
        simp only [Option.some.injEq] at hb
        refine ⟨e, rfl, ?_, ?_⟩
        · rw [← hb]
        · intro idata ty
          rw [UnitBuilder.build_inst, ← hb]
          simp [FunctionInsertPos.addInst]
  · intro hk
    have hnew : UnitBuilder.new uid data = some ⟨uid, data, FunctionInsertPos.none⟩ := by
      rw [UnitBuilder.new]
      cases hkind : data.kind with
      | Entity => exact absurd hkind hk
      | Function => rfl
      | Process => rfl
    refine ⟨hnew, ?_⟩
    intro b hb idata ty
    rw [hnew] at hb
    simp only [Option.some.injEq] at hb
    rw [UnitBuilder.build_inst, ← hb]
    rfl

/-- C10 witness: insertion succeeds immediately on a fresh Entity builder and
fails on a fresh Process builder. -/
theorem builder_cursor_witness :
    (UnitBuilder.build_inst ⟨0, entData, FunctionInsertPos.append ⟨0⟩⟩
      ⟨"halt", [], [], false⟩ Ty.void).isSome = true ∧
    UnitBuilder.build_inst ⟨0, procData, FunctionInsertPos.none⟩
      ⟨"halt", [], [], false⟩ Ty.void = none := by
  constructor
  · have hb : UnitBuilder.new 0 entData =
        some ⟨0, entData, FunctionInsertPos.append ⟨0⟩⟩ := by decide
    obtain ⟨e, hE, hpos, hins⟩ :=
      (builder_cursor_spec 0 entData).2.1 (by decide) _ hb
    exact hins _ _
  · have hb : UnitBuilder.new 0 procData =
        some ⟨0, procData, FunctionInsertPos.none⟩ := by decide
    exact ((builder_cursor_spec 0 procData).2.2 (by decide)).2 _ hb _ _

theorem not_mem_map_replace (args : List Value) (f t : Value) (hne : f ≠ t) :
    f ∉ args.map (fun x => if x = f then t else x) := by
  intro hmem
  obtain ⟨x, hx, heq⟩ := List.mem_map.mp hmem
  by_cases hxf : x = f
  · rw [if_pos hxf] at heq
    exact hne heq.symm
  · rw [if_neg hxf] at heq
    exact hxf heq

theorem preserve_absent_map_replace (args : List Value) (f v : Value)
    (hv : v ≠ Value.invalid) (h : v ∉ args) :
    v ∉ args.map (fun x => if x = f then Value.invalid else x) := by
  intro hmem
  obtain ⟨x, hx, heq⟩ := List.mem_map.mp hmem
  by_cases hxf : x = f
  · rw [if_pos hxf] at heq
    exact hv heq.symm
  · rw [if_neg hxf] at heq
    rw [heq] at hx
    exact h hx

theorem no_mem_no_uses (d : DataFlowGraph) (v : Value)
    (h : ∀ e ∈ d.insts, v ∉ e.data.args) : d.has_uses v = false := by
  rw [DataFlowGraph.has_uses, DataFlowGraph.uses]
  simp only [Bool.not_eq_false', List.isEmpty_iff, List.map_eq_nil_iff]
  rw [List.filter_eq_nil_iff]
  intro e he
  simpa using h e he

theorem find?_key_map (l : List InstEntry) (g : InstEntry → InstEntry)
    (hg : ∀ e, (g e).key = e.key) (i : Inst) :
    (l.map g).find? (fun e => decide (e.key = i)) =
      (l.find? (fun e => decide (e.key = i))).map g := by
  induction l with
  | nil => rfl
  | cons e rest ih =>
      by_cases hk : e.key = i
      · rw [List.map_cons, List.find?_cons_of_pos (rest.map g) (by simp [hg e, hk]),
          List.find?_cons_of_pos rest (by simpa using hk)]
        rfl
      · rw [List.map_cons, List.find?_cons_of_neg (rest.map g) (by simp [hg e, hk]),
          List.find?_cons_of_neg rest (by simpa using hk)]
        exact ih

theorem get_inst_result_map (d : DataFlowGraph) (g : InstEntry → InstEntry)
    (hkey : ∀ e, (g e).key = e.key) (hres : ∀ e, (g e).result = e.result) (i : Inst) :
    DataFlowGraph.get_inst_result { d with insts := d.insts.map g } i =
      d.get_inst_result i := by
  rw [DataFlowGraph.get_inst_result, DataFlowGraph.get_inst_result,
    DataFlowGraph.findEntry, DataFlowGraph.findEntry]
  simp only
  rw [find?_key_map d.insts g hkey i]
  cases h : d.insts.find? (fun e => decide (e.key = i)) with
  | none => rfl
  | some e => simp [hres e]

theorem find?_key_filter (l : List InstEntry) (i j : Inst) (hne : j ≠ i) :
    (l.filter (fun x => decide (x.key ≠ i))).find? (fun e => decide (e.key = j)) =
      l.find? (fun e => decide (e.key = j)) := by
  induction l with
  | nil => rfl
  | cons e rest ih =>
      by_cases hk : e.key = i
      · have hnotj : ¬ (e.key = j) := by rw [hk]; exact fun hc => hne hc.symm
        rw [List.filter_cons_of_neg (by simpa using hk)]
        rw [List.find?_cons_of_neg rest (by simpa using hnotj)]
        exact ih
      · rw [List.filter_cons_of_pos (by simpa using hk)]
        by_cases hj : e.key = j
        · rw [List.find?_cons_of_pos (List.filter (fun x => decide (x.key ≠ i)) rest)
            (by simpa using hj),
            List.find?_cons_of_pos rest (by simpa using hj)]
        · rw [List.find?_cons_of_neg (List.filter (fun x => decide (x.key ≠ i)) rest)
            (by simpa using hj),
            List.find?_cons_of_neg rest (by simpa using hj)]
          exact ih

theorem get_inst_result_filter_ne (d : DataFlowGraph) (i j : Inst) (hne : j ≠ i) :
    DataFlowGraph.get_inst_result
        { d with insts := d.insts.filter (fun x => decide (x.key ≠ i)) } j =
      d.get_inst_result j := by
  rw [DataFlowGraph.get_inst_result, DataFlowGraph.get_inst_result,
    DataFlowGraph.findEntry, DataFlowGraph.findEntry]
  simp only
  rw [find?_key_filter d.insts i j hne]

theorem removeBlockRefs_no_bb (data : InstData) (bb : Block)
    (hinv : bb ≠ Block.invalid) :
    bb ∉ ((data.removeBlockRefs bb).1).bbs := by
  rw [InstData.removeBlockRefs]
  by_cases hphi : data.isPhi
  · simp only [hphi, if_true]
    intro hmem
    obtain ⟨p, hp, heq⟩ := List.mem_map.mp hmem
    have := (List.mem_filter.mp hp).2
    rw [heq] at this
    simp at this
  · simp only [hphi, Bool.false_eq_true, if_false]
    intro hmem
    obtain ⟨x, hx, heq⟩ := List.mem_map.mp hmem
    by_cases hxb : x = bb
    · rw [if_pos hxb] at heq
      exact hinv heq.symm
    · rw [if_neg hxb] at heq
      exact hxb heq

theorem replace_use_insts (d : DataFlowGraph) (f t : Value) :
    (d.replace_use f t).1 =
      { d with insts := d.insts.map (fun e => { e with data := e.data.replaceArgs f t }) } :=
  rfl

theorem dfg_remove_inst_no_result (d : DataFlowGraph) (i : Inst)
    (hg : d.get_inst_result i = Option.none) :
    d.remove_inst i =
      some { d with insts := d.insts.filter (fun x => decide (x.key ≠ i)) } := by
  rw [DataFlowGraph.remove_inst, hg]

theorem get_inst_result_mem (d : DataFlowGraph) (i : Inst) (v : Value)
    (hg : d.get_inst_result i = some v) :
    ∃ e ∈ d.insts, e.result = some v := by
  rw [DataFlowGraph.get_inst_result] at hg
  cases hF : d.findEntry i with
  | none => rw [hF] at hg; cases hg
  | some e1 =>
      rw [hF] at hg
      exact ⟨e1, List.mem_of_find?_eq_some hF, hg⟩

theorem removeBlockStep_spec (bb : Block) (d : DataFlowGraph) (i : Inst)
    (hWF : ∀ e ∈ d.insts, ∀ r, e.result = some r → r ≠ Value.invalid)
    (hbb : ∀ e ∈ d.insts, bb ∉ e.data.bbs) :
    ∃ d1, removeBlockStep (some d) i = some d1 ∧
      (∀ e ∈ d1.insts, ∀ r, e.result = some r → r ≠ Value.invalid) ∧
      (∀ e ∈ d1.insts, bb ∉ e.data.bbs) ∧
      (∀ e ∈ d1.insts, e.key ≠ i) ∧
      (∀ r, d.get_inst_result i = some r → ∀ e ∈ d1.insts, r ∉ e.data.args) ∧
      (∀ v, v ≠ Value.invalid → (∀ e ∈ d.insts, v ∉ e.data.args) →
        ∀ e ∈ d1.insts, v ∉ e.data.args) ∧
      (∀ j, j ≠ i → d1.get_inst_result j = d.get_inst_result j) ∧
      (∀ j, (∀ e ∈ d.insts, e.key ≠ j) → ∀ e ∈ d1.insts, e.key ≠ j) := by
  cases hg : d.get_inst_result i with
  | none =>
      refine ⟨{ d with insts := d.insts.filter (fun x => decide (x.key ≠ i)) }, ?_,
        ?_, ?_, ?_, ?_, ?_, ?_, ?_⟩
      · rw [removeBlockStep]
        simp only [Option.some_bind]
        rw [hg]
        exact dfg_remove_inst_no_result d i hg
      · intro e he
        exact hWF e (List.mem_of_mem_filter he)
      · intro e he
        exact hbb e (List.mem_of_mem_filter he)
      · intro e he
        simpa using (List.mem_filter.mp he).2
      · intro r hr
        cases hr
      · intro v hv habs e he
        exact habs e (List.mem_of_mem_filter he)
      · intro j hj
        exact get_inst_result_filter_ne d i j hj
      · intro j habs e he
        exact habs e (List.mem_of_mem_filter he)
  | some v =>
      have hvne : v ≠ Value.invalid := by
        obtain ⟨e1, he1, hres⟩ := get_inst_result_mem d i v hg
        exact hWF e1 he1 v hres
      have hmap : (d.replace_use v Value.invalid).1.insts =
          d.insts.map (fun e => { e with data := e.data.replaceArgs v Value.invalid }) := rfl
      have hg1 : (d.replace_use v Value.invalid).1.get_inst_result i = some v := by
        rw [replace_use_insts]
        rw [get_inst_result_map d
          (fun e => { e with data := e.data.replaceArgs v Value.invalid })
          (fun e => rfl) (fun e => rfl) i]
        exact hg
      have hu : (d.replace_use v Value.invalid).1.has_uses v = false := by
        apply no_mem_no_uses
        intro e he
        rw [hmap] at he
        obtain ⟨e0, he0, rfl⟩ := List.mem_map.mp he
        exact not_mem_map_replace e0.data.args v Value.invalid hvne
      have h1 := dfg_remove_inst_some (d.replace_use v Value.invalid).1 i v hg1 hu
      refine ⟨{ insts := ((d.replace_use v Value.invalid).1.insts).filter
                  (fun x => decide (x.key ≠ i)),
                argValues := (d.replace_use v Value.invalid).1.argValues,
                nextInst := (d.replace_use v Value.invalid).1.nextInst,
                nextValue := (d.replace_use v Value.invalid).1.nextValue },
        ?_, ?_, ?_, ?_, ?_, ?_, ?_, ?_⟩
      · rw [removeBlockStep]
        simp only [Option.some_bind]
        rw [hg]
        exact h1
      · intro e he
        simp only [hmap] at he
        obtain ⟨hmm, hkk⟩ := List.mem_filter.mp he
        obtain ⟨e0, he0, rfl⟩ := List.mem_map.mp hmm
        exact hWF e0 he0
      · intro e he
        simp only [hmap] at he
        obtain ⟨hmm, hkk⟩ := List.mem_filter.mp he
        obtain ⟨e0, he0, rfl⟩ := List.mem_map.mp hmm
        exact hbb e0 he0
      · intro e he
        simpa using (List.mem_filter.mp he).2
      · intro r hr e he
        injection hr with hv2
        subst hv2
        simp only [hmap] at he
        obtain ⟨hmm, hkk⟩ := List.mem_filter.mp he
        obtain ⟨e0, he0, rfl⟩ := List.mem_map.mp hmm
        exact not_mem_map_replace e0.data.args v Value.invalid hvne
      · intro w hw habs e he
        simp only [hmap] at he
        obtain ⟨hmm, hkk⟩ := List.mem_filter.mp he
        obtain ⟨e0, he0, rfl⟩ := List.mem_map.mp hmm
        exact preserve_absent_map_replace e0.data.args v w hw (habs e0 he0)
      · intro j hj
        rw [get_inst_result_filter_ne (d.replace_use v Value.invalid).1 i j hj]
        rw [replace_use_insts]
        exact get_inst_result_map d
          (fun e => { e with data := e.data.replaceArgs v Value.invalid })
          (fun e => rfl) (fun e => rfl) j
      · intro j habs e he
        simp only [hmap] at he
        obtain ⟨hmm, hkk⟩ := List.mem_filter.mp he
        obtain ⟨e0, he0, rfl⟩ := List.mem_map.mp hmm
        exact habs e0 he0

theorem removeBlockFold (bb : Block) :
    ∀ (l : List Inst) (d : DataFlowGraph),
      (∀ e ∈ d.insts, ∀ r, e.result = some r → r ≠ Value.invalid) →
      (∀ e ∈ d.insts, bb ∉ e.data.bbs) →
      ∃ d2, l.foldl removeBlockStep (some d) = some d2 ∧
        (∀ e ∈ d2.insts, ∀ r, e.result = some r → r ≠ Value.invalid) ∧
        (∀ e ∈ d2.insts, bb ∉ e.data.bbs) ∧
        (∀ i ∈ l, ∀ e ∈ d2.insts, e.key ≠ i) ∧
        (∀ i ∈ l, ∀ r, d.get_inst_result i = some r →
          ∀ e ∈ d2.insts, r ∉ e.data.args) ∧
        (∀ v, v ≠ Value.invalid → (∀ e ∈ d.insts, v ∉ e.data.args) →
          ∀ e ∈ d2.insts, v ∉ e.data.args) ∧
        (∀ j, (∀ e ∈ d.insts, e.key ≠ j) → ∀ e ∈ d2.insts, e.key ≠ j) := by
  intro l
  induction l with
  | nil =>
      intro d hWF hbb
      exact ⟨d, rfl, hWF, hbb, by simp, by simp, fun v hv ha => ha, fun j ha => ha⟩
  | cons i rest ih =>
      intro d hWF hbb
      obtain ⟨d1, hstep, hWF1, hbb1, hkey1, hscrub1, habs1, hget1, hkeys1⟩ :=
        removeBlockStep_spec bb d i hWF hbb
      obtain ⟨d2, hfold, hWF2, hbb2, hkey2, hscrub2, habs2, hkeys2⟩ := ih d1 hWF1 hbb1
      refine ⟨d2, ?_, hWF2, hbb2, ?_, ?_, ?_, ?_⟩
      · rw [List.foldl_cons, hstep]
        exact hfold
      · intro j hj
        rcases List.mem_cons.mp hj with hj | hj
        · subst hj
          exact hkeys2 j hkey1
        · exact hkey2 j hj
      · intro j hj r hr
        rcases List.mem_cons.mp hj with hj | hj
        · subst hj
          have hrne : r ≠ Value.invalid := by
            obtain ⟨e1, he1, hres⟩ := get_inst_result_mem d j r hr
            exact hWF e1 he1 r hres
          exact habs2 r hrne (hscrub1 r hr)
        · by_cases hji : j = i
          · subst hji
            have hrne : r ≠ Value.invalid := by
              obtain ⟨e1, he1, hres⟩ := get_inst_result_mem d j r hr
              exact hWF e1 he1 r hres
            exact habs2 r hrne (hscrub1 r hr)
          · have hd1 : d1.get_inst_result j = some r := by
              rw [hget1 j hji]
              exact hr
            exact hscrub2 j hj r hd1
      · intro v hv ha
        exact habs2 v hv (habs1 v hv ha)
      · intro j ha
        exact hkeys2 j (hkeys1 j ha)

theorem remove_block_use_insts (d : DataFlowGraph) (bb : Block) :
    (d.remove_block_use bb).1 =
      { d with insts := d.insts.map (fun e => { e with data := (e.data.removeBlockRefs bb).1 }) } :=
  rfl

/-- C1: for a block `bb` of the layout (in a unit whose result values are not
the invalid sentinel), `remove_block(bb)` succeeds, removes `bb` from the CFG
and the layout, leaves no live instruction referencing `bb` (ϕ predecessor
entries included), removes every instruction of `bb` from the DFG, and scrubs
each of their result values from the operand lists of all remaining
instructions (replacing those operands with the invalid-value sentinel). -/
theorem remove_block_spec (b : UnitBuilderState) (bb : Block)
    (hbb : bb ∈ b.data.layout.bbs)
    (hinv : bb ≠ Block.invalid)
    (hres : ∀ e ∈ b.data.dfg.insts, ∀ r, e.result = some r → r ≠ Value.invalid) :
    ∃ b2, UnitBuilder.remove_block b bb = some b2 ∧
      bb ∉ b2.data.cfg.blocks ∧
      bb ∉ b2.data.layout.bbs ∧
      (∀ e ∈ b2.data.dfg.insts, bb ∉ e.data.bbs) ∧
      (∀ i ∈ b.data.layout.insts bb, ∀ e ∈ b2.data.dfg.insts, e.key ≠ i) ∧
      (∀ i ∈ b.data.layout.insts bb, ∀ r, b.data.dfg.get_inst_result i = some r →
        ∀ e ∈ b2.data.dfg.insts, r ∉ e.data.args) := by
  have hWF1 : ∀ e ∈ (b.data.dfg.remove_block_use bb).1.insts, ∀ r,
      e.result = some r → r ≠ Value.invalid := by
    intro e he
    rw [remove_block_use_insts] at he
    obtain ⟨e0, he0, rfl⟩ := List.mem_map.mp he
    exact hres e0 he0
  have hbb1 : ∀ e ∈ (b.data.dfg.remove_block_use bb).1.insts, bb ∉ e.data.bbs := by
    intro e he
    rw [remove_block_use_insts] at he
    obtain ⟨e0, he0, rfl⟩ := List.mem_map.mp he
    exact removeBlockRefs_no_bb e0.data bb hinv
  have hget1 : ∀ j, (b.data.dfg.remove_block_use bb).1.get_inst_result j =
      b.data.dfg.get_inst_result j := by
    intro j
    rw [remove_block_use_insts]
    exact get_inst_result_map b.data.dfg
      (fun e => { e with data := (e.data.removeBlockRefs bb).1 })
      (fun e => rfl) (fun e => rfl) j
  obtain ⟨d2, hfold, hWF2, hbb2, hkey2, hscrub2, habs2, hkeys2⟩ :=
    removeBlockFold bb (b.data.layout.insts bb)
      (b.data.dfg.remove_block_use bb).1 hWF1 hbb1
  refine ⟨{ b with data := { b.data with dfg := d2, layout := b.data.layout.remove_block bb, cfg := b.data.cfg.remove_block bb } }, ?_, ?_, ?_, hbb2, hkey2, ?_⟩
  · rw [UnitBuilder.remove_block]
    rw [hfold]
    rfl
  · simp only [ControlFlowGraph.remove_block]
    intro hmem
    have := (List.mem_filter.mp hmem).2
    simp at this
  · simp only [FunctionLayout.remove_block]
    intro hmem
    have := (List.mem_filter.mp hmem).2
    simp at this
  · intro i hi r hr
    refine hscrub2 i hi r ?_
    rw [hget1 i]
    exact hr

/-- C1 witness: the S4 scenario, with the block and result sentinels
evaluated on the concrete process. -/
theorem remove_block_spec_witness :
    blkB ∉ rbResult.data.cfg.blocks ∧ blkB ∉ rbResult.data.layout.bbs ∧
    UnitBuilder.remove_block rbBuilder blkB = some rbResult := by
  obtain ⟨b2, h1, h2, h3, _, _, _⟩ :=
    remove_block_spec rbBuilder blkB (by decide) (by decide) (by decide)
  have he : UnitBuilder.remove_block rbBuilder blkB = some rbResult := by decide
  rw [he] at h1
  injection h1 with hb
  subst hb
  exact ⟨h2, h3, he⟩

end llhd
